import Mathlib

/-!
Verification of the bencher SIMD plotting/mining core (PoC-Consortium/bencher).

Shallow embedding of `noncegen_avx2` / `find_best_deadline_avx2`
(src/unnamed/part_001) and `noncegen_avx512f` / `find_best_deadline_avx512f`
(src/src/c/noncegen_512_avx512f.c).  The two C files are, per lane, the same
algorithm at vector widths B = 8 and B = 16; the embedding keeps B as a
parameter wherever the source scales an offset by `MSHABAL256_VECTOR_SIZE` /
`MSHABAL512_VECTOR_SIZE`.

The Shabal-256 kernel itself (`mshabal_256_avx2.c`, `mshabal_512_avx512f.c`)
and the helpers of `common.c` / `common.h` (`write_seed`, `write_term`,
`bswap_64`, `SET_BEST_DEADLINE`) are not among the provided sources; they are
modelled from the specification (and from the comments in the provided
sources), as marked on each such definition.
-/

namespace Bencher

/-- HASH_SIZE from common.h: one Shabal-256 output, 32 bytes. -/
def HASH_SIZE : ℕ := 32

/-- NONCE_SIZE from common.h: one nonce, 262144 bytes (8192 hashes). -/
def NONCE_SIZE : ℕ := 262144

/-- HASH_CAP from common.h: the 4096-byte absorb window of the hash chain. -/
def HASH_CAP : ℕ := 4096

/-- SCOOP_SIZE from common.h: one scoop, 64 bytes (two hashes). -/
def SCOOP_SIZE : ℕ := 64

/-- Little-endian byte `i` of a machine integer (how the C object `x` lays in
memory on the little-endian hosts the kernels target). -/
def byteAt (x i : ℕ) : ℕ := x / 2 ^ (8 * i) % 256

/-- Big-endian byte `k` of a 64-bit value (byte 0 is the most significant). -/
def beByte (x k : ℕ) : ℕ := x / 2 ^ (8 * (7 - k)) % 256

/-- Modelled from the spec: `bswap_64` (common.h, not among the sources)
reverses the byte order of a 64-bit value, so that storing the result
little-endian yields the big-endian bytes of the argument (spec section 9,
Endianness). -/
def bswap_64 (x : ℕ) : ℕ :=
  byteAt x 7 + byteAt x 6 * 2 ^ 8 + byteAt x 5 * 2 ^ 16 + byteAt x 4 * 2 ^ 24 +
  byteAt x 3 * 2 ^ 32 + byteAt x 2 * 2 ^ 40 + byteAt x 1 * 2 ^ 48 + byteAt x 0 * 2 ^ 56

/-- Modelled from the spec: `write_seed` (common.c, not among the sources).
The layout follows the comment on the `seed` buffer in both provided sources
(part_001 line 31, noncegen_512_avx512f.c line 31): 64-bit numeric account id
(big-endian, `bswap_64` then store), a blank 64-bit nonce field, one Shabal
termination bit (the byte 0x80), and zeros to the end. -/
def write_seed (numeric_id : ℕ) : ℕ → ℕ := fun k =>
  if k < 8 then byteAt (bswap_64 numeric_id) k
  else if k < 16 then 0
  else if k = 16 then 128
  else 0

/-- Modelled from the spec: `write_term` (common.c, not among the sources).
Per the comment on the `term` buffer in both sources ("1bit 1, 255bit of
zeros") and spec section 3: the byte 0x80 followed by 31 zero bytes. -/
def write_term : ℕ → ℕ := fun k => if k = 0 then 128 else 0

/-- The per-lane 32-byte seed block after the batch loop patched the nonce
number into it: the per-batch loops (part_001 lines 112-131,
noncegen_512_avx512f.c lines 162-198) overwrite per-lane words 2 and 3
(bytes 8..15) with the memory bytes of `bswap_64 nonceNo`. -/
def seedLane (numeric_id nonceNo : ℕ) : ℕ → ℕ := fun k =>
  if 8 ≤ k ∧ k < 16 then byteAt (bswap_64 nonceNo) (k - 8) else write_seed numeric_id k

/-- First `n` bytes of a byte function, as a list. -/
def listOf (f : ℕ → ℕ) (n : ℕ) : List ℕ := (List.range n).map f

/-- Per-lane 64-byte template T1 = patched seed block followed by 32 zero
bytes (template build loops, part_001 lines 50-68 / avx512f lines 50-84). -/
def t1Lane (numeric_id nonceNo : ℕ) : ℕ → ℕ := fun k =>
  if k < 32 then seedLane numeric_id nonceNo k else 0

/-- Per-lane 64-byte template T3 = termination marker block followed by 32
zero bytes (part_001 lines 80-95 / avx512f lines 104-136). -/
def t3Lane : ℕ → ℕ := fun k => if k < 32 then write_term k else 0

/-- Decrement loop `for (i = start; i > stop; i -= step)` of the C sources,
returning the successive values of `i`.  The fuel argument bounds the number
of iterations; for `step ≥ 1` the loop runs at most `i` times, so the
callers pass `i` itself as fuel and the embedding is exact. -/
def descRangeAux : ℕ → ℕ → ℕ → ℕ → List ℕ
  | 0, _, _, _ => []
  | fuel + 1, stop, step, i => if stop < i then i :: descRangeAux fuel stop step (i - step) else []

/-- Values of `i` taken by `for (i = start; i > stop; i -= step)`. -/
def descRange (stop step i : ℕ) : List ℕ := descRangeAux i stop step i

/-- Loop indices of the early phase, rounds 2-128 (part_001 line 153,
avx512f line 220): `for (i = NONCE_SIZE - HASH_SIZE; i > NONCE_SIZE - HASH_CAP; i -= HASH_SIZE)`. -/
def earlyList : List ℕ := descRange (NONCE_SIZE - HASH_CAP) HASH_SIZE (NONCE_SIZE - HASH_SIZE)

/-- Loop indices of the saturated phase, rounds 128-8192 (part_001 line 172,
avx512f line 239): `for (i = NONCE_SIZE - HASH_CAP; i > 0; i -= HASH_SIZE)`. -/
def satList : List ℕ := descRange 0 HASH_SIZE (NONCE_SIZE - HASH_CAP)

/-- The three pre-shaped termination templates of the engines. -/
inductive Tmpl | T1 | T2 | T3
deriving DecidableEq

/-- One `mshabal_hash_fast` invocation of a noncegen batch: message position
in the cache (byte offset within the batch, scaled by the vector width B at
the point of use; `none` models the NULL message of round 1), termination
template, output position (`none` models the scratch `final` buffer), and
the number of 64-byte message blocks compressed per lane. -/
structure ShabalCall where
  msgOff : Option ℕ
  tmpl : Tmpl
  outOff : Option ℕ
  blocks : ℕ
deriving DecidableEq

/-- Early-phase invocation at loop index `i` (part_001 lines 156-168,
avx512f lines 223-235): message at `cache[i*B]`, template T1 when
`i % 64 == 0` and T2 otherwise, output at `cache[(i-HASH_SIZE)*B]`,
`(NONCE_SIZE + 16 - i) >> 6` blocks. -/
def earlyCall (i : ℕ) : ShabalCall :=
  { msgOff := some i
    tmpl := if i % 64 = 0 then Tmpl.T1 else Tmpl.T2
    outOff := some (i - HASH_SIZE)
    blocks := (NONCE_SIZE + 16 - i) >>> 6 }

/-- Saturated-phase invocation at loop index `i` (part_001 lines 173-175,
avx512f lines 240-242): message at `cache[i*B]`, template T3, output at
`cache[(i-HASH_SIZE)*B]`, `HASH_CAP >> 6` blocks. -/
def satCall (i : ℕ) : ShabalCall :=
  { msgOff := some i
    tmpl := Tmpl.T3
    outOff := some (i - HASH_SIZE)
    blocks := HASH_CAP >>> 6 }

/-- The complete sequence of `mshabal_hash_fast` invocations performed by one
batch iteration of `noncegen_avx2` / `noncegen_avx512f`, in program order:
round 1 (part_001 lines 144-146), rounds 2-128, rounds 128-8192, and the
final whole-nonce digest into the scratch buffer (lines 179-180).  The XOR
mask pass follows these calls. -/
def batchCalls : List ShabalCall :=
  { msgOff := none, tmpl := Tmpl.T1, outOff := some (NONCE_SIZE - HASH_SIZE), blocks := 16 >>> 6 } ::
    (earlyList.map earlyCall ++ satList.map satCall ++
      [{ msgOff := some 0, tmpl := Tmpl.T1, outOff := none, blocks := (NONCE_SIZE + 16) >>> 6 }])

/-- Number of iterations of the ascending C loop
`for (i = start; i < bound; i += step)`.  The fuel argument bounds the
iteration count; for `step ≥ 1` the loop runs at most `bound` times when
started at 0, so `noncegenIters` passes `bound` as fuel and the embedding is
exact in the claim's no-overflow regime. -/
def ascLoopIters : ℕ → ℕ → ℕ → ℕ → ℕ
  | 0, _, _, _ => 0
  | fuel + 1, i, bound, step => if i < bound then 1 + ascLoopIters fuel (i + step) bound step else 0

/-- Iterations of the batch loop `for (n = 0; n < local_nonces; n += B)` of
`noncegen_avx2` (part_001 line 98, B = 8) and `noncegen_avx512f`
(avx512f line 139, B = 16); each iteration generates one batch of B nonces. -/
def noncegenIters (local_nonces B : ℕ) : ℕ := ascLoopIters local_nonces 0 local_nonces B

/-- Local clone of the process-wide fast Shabal context: embeds the
`memcpy(&x, &global_256_fast, ...)` / `memcpy(&local_512_fast, ...)` calls
(part_001 lines 141-142 and 203-204, avx512f lines 208-209 and 272-273).
Modelled from the spec: `mshabal_hash_fast` and `mshabal_deadline_fast`
(kernel sources not provided) are one-shot hashes that read the context by
value and do not mutate it, so the clone stays equal to the global fast
context for the whole call. -/
def localFastCtx {Ctx : Type} (g : Ctx) : Ctx := g

/-- The 32-byte termination block `term` (`write_term`), broadcast per lane
into `term_simd` (part_001 lines 222-229, avx512f lines 299-314). -/
def termList : List ℕ := listOf write_term HASH_SIZE

/-- The 32-byte generation signature, broadcast per lane into `gensig_simd`
(part_001 lines 214-221, avx512f lines 283-298). -/
def gensigList (gensig : ℕ → ℕ) : List ℕ := listOf gensig HASH_SIZE

/-- First 8 output bytes read as a native little-endian unsigned 64-bit
integer — the deadline extraction of `mshabal_deadline_fast`. -/
def u64le (o : ℕ → ℕ) : ℕ :=
  o 0 + o 1 * 256 + o 2 * 65536 + o 3 * 16777216 + o 4 * 4294967296 +
  o 5 * 1099511627776 + o 6 * 281474976710656 + o 7 * 72057594037927936

/-- Pointer `u1` of the deadline loop (part_001 line 236, avx512f line 321):
`data + i * NONCE_SIZE + scoop * SCOOP_SIZE * B`. -/
def u1Addr (B scoop i : ℕ) : ℕ := i * NONCE_SIZE + scoop * SCOOP_SIZE * B

/-- Pointer `u2` of the deadline loop (part_001 lines 232 and 237, avx512f
lines 317 and 322): `data + i * NONCE_SIZE + mirrorscoop * SCOOP_SIZE * B +
HASH_SIZE * B` with `mirrorscoop = 4095 - scoop`. -/
def u2Addr (B scoop i : ℕ) : ℕ :=
  i * NONCE_SIZE + (4095 - scoop) * SCOOP_SIZE * B + HASH_SIZE * B

/-- The 32 bytes of lane `b` of an interleaved 32-byte cache slab starting
at byte address `addr`: byte `k` of lane `b` lives at `addr + k * B + b`. -/
def slab32 (B : ℕ) (data : ℕ → ℕ) (addr b : ℕ) : List ℕ :=
  (List.range HASH_SIZE).map fun k => data (addr + k * B + b)

/-- Modelled from the spec: per-lane semantics of `mshabal_deadline_fast`
(kernel sources not provided; spec section 4.5 steps 2-3): one Shabal-256,
from the fast context, over the 128-byte message `gensig || u1 || u2 ||
term` of lane `b`, whose first 8 output bytes form the lane's deadline.
`sh` is the abstract per-lane Shabal-256 one-shot (context, message bytes,
output byte index). -/
def deadlineLane {Ctx : Type} (sh : Ctx → List ℕ → ℕ → ℕ) (g : Ctx) (B : ℕ)
    (data gensig : ℕ → ℕ) (scoop i b : ℕ) : ℕ :=
  u64le (sh (localFastCtx g)
    (gensigList gensig ++ slab32 B data (u1Addr B scoop i) b ++
      slab32 B data (u2Addr B scoop i) b ++ termList))

/-- Modelled from the spec: the `SET_BEST_DEADLINE` macro (common.h, not
among the sources; spec section 4.5 step 4): if best_deadline is zero
(uninitialized) or the candidate is strictly smaller, replace
(best_deadline, best_offset). -/
def SET_BEST_DEADLINE (st : ℕ × ℕ) (d off : ℕ) : ℕ × ℕ :=
  if st.1 = 0 ∨ d < st.1 then (d, off) else st

/-- Core of `find_best_deadline_avx2` / `find_best_deadline_avx512f`
(part_001 lines 234-249, avx512f lines 319-343): the loop
`for (i = 0; i < nonce_count; i += B)` computes the B lane deadlines of
batch `i` and applies `SET_BEST_DEADLINE` at offsets `i + 0 .. i + B - 1`
in lane order.  With the precondition `nonce_count % B == 0` the loop
indices are exactly `0, B, ..., nonce_count - B`. -/
def find_best_core {Ctx : Type} (sh : Ctx → List ℕ → ℕ → ℕ) (g : Ctx) (B : ℕ)
    (data gensig : ℕ → ℕ) (scoop nonce_count : ℕ) (st0 : ℕ × ℕ) : ℕ × ℕ :=
  ((List.range (nonce_count / B)).map (· * B)).foldl
    (fun st i => (List.range B).foldl
      (fun st b => SET_BEST_DEADLINE st (deadlineLane sh g B data gensig scoop i b) (i + b)) st)
    st0

/-- The deadline of nonce offset `j`: lane `j % B` of batch `B * (j / B)`. -/
def nonceDeadline {Ctx : Type} (sh : Ctx → List ℕ → ℕ → ℕ) (g : Ctx) (B : ℕ)
    (data gensig : ℕ → ℕ) (scoop j : ℕ) : ℕ :=
  deadlineLane sh g B data gensig scoop (B * (j / B)) (j % B)

/-- Caller-visible state of a `find_best_deadline` call: the bytes reachable
through the `data` and `gensig` pointers and the two output cells. -/
structure MineState where
  data : ℕ → ℕ
  gensig : ℕ → ℕ
  bestDeadline : ℕ
  bestOffset : ℕ

/-- The full `find_best_deadline` call as a state transformer: the source
reads `data` and `gensig` (gensig/term broadcast, `mshabal_deadline_fast`
loads), and writes only through `best_deadline` and `best_offset`
(`SET_BEST_DEADLINE`). -/
def find_best_deadline {Ctx : Type} (sh : Ctx → List ℕ → ℕ → ℕ) (g : Ctx)
    (B scoop nonce_count : ℕ) (s : MineState) : MineState :=
  { s with
    bestDeadline :=
      (find_best_core sh g B s.data s.gensig scoop nonce_count (s.bestDeadline, s.bestOffset)).1
    bestOffset :=
      (find_best_core sh g B s.data s.gensig scoop nonce_count (s.bestDeadline, s.bestOffset)).2 }

/-- Linear reduction over nonce offsets `0 .. n-1` in visit order. -/
def bestFold (dl : ℕ → ℕ) (n : ℕ) (st0 : ℕ × ℕ) : ℕ × ℕ :=
  (List.range n).foldl (fun st j => SET_BEST_DEADLINE st (dl j) j) st0

/-- Per-lane 64-byte template T1 as a list: patched seed block then zeros. -/
def seedT1 (numeric_id nonceNo : ℕ) : List ℕ := listOf (t1Lane numeric_id nonceNo) 64

/-- Per-lane 64-byte template T3 as a list: termination marker then zeros. -/
def termT3List : List ℕ := listOf t3Lane 64

/-- The first `len` bytes of a per-lane byte stream starting at `off`. -/
def msgTake (c : ℕ → ℕ) (off len : ℕ) : List ℕ := (List.range len).map fun k => c (off + k)

/-- Write one 32-byte hash output at per-lane byte offset `off`. -/
def laneWrite (c : ℕ → ℕ) (off : ℕ) (h : ℕ → ℕ) : ℕ → ℕ :=
  fun r => if off ≤ r ∧ r < off + HASH_SIZE then h (r - off) else c r

/-- Modelled from the spec: round 1 of a batch (part_001 lines 144-146,
avx512f lines 211-213) compresses the NULL message (`16 >> 6 = 0` blocks)
plus the T1 termination frame from the fast context.  `hf` is the abstract
per-lane one-shot `mshabal_hash_fast` (kernel sources not provided):
context, message bytes, 64-byte termination frame, 32-byte output. -/
def round1Out {Ctx : Type} (hf : Ctx → List ℕ → List ℕ → ℕ → ℕ) (g : Ctx)
    (numeric_id nonceNo : ℕ) : ℕ → ℕ :=
  hf (localFastCtx g) [] (seedT1 numeric_id nonceNo)

/-- Per-lane cache after round 1: the 32-byte round-1 output stored at byte
offset `NONCE_SIZE - HASH_SIZE` (hash index 8191).  The cache region is
fresh for the batch; no byte is read before it is written, so the initial
contents are immaterial and taken as 0. -/
def laneCache1 {Ctx : Type} (hf : Ctx → List ℕ → List ℕ → ℕ → ℕ) (g : Ctx)
    (numeric_id nonceNo : ℕ) : ℕ → ℕ :=
  laneWrite (fun _ => 0) (NONCE_SIZE - HASH_SIZE) (round1Out hf g numeric_id nonceNo)

/-- Per-lane template T2 after the `memcpy` from the cache (part_001 lines
149-150, avx512f lines 216-217): the 32 bytes at cache offset
`NONCE_SIZE - HASH_SIZE`, then the patched seed block. -/
def laneT2 {Ctx : Type} (hf : Ctx → List ℕ → List ℕ → ℕ → ℕ) (g : Ctx)
    (numeric_id nonceNo : ℕ) : List ℕ :=
  msgTake (laneCache1 hf g numeric_id nonceNo) (NONCE_SIZE - HASH_SIZE) HASH_SIZE ++
    listOf (seedLane numeric_id nonceNo) HASH_SIZE

/-- One early-phase step (part_001 lines 153-169, avx512f lines 220-236), per
lane: hash `(NONCE_SIZE + 16 - i) >> 6` blocks from cache offset `i` with
termination T1 when `i % 64 == 0` and T2 otherwise, output at `i - HASH_SIZE`. -/
def laneEarlyStep {Ctx : Type} (hf : Ctx → List ℕ → List ℕ → ℕ → ℕ) (g : Ctx)
    (t1 t2 : List ℕ) (c : ℕ → ℕ) (i : ℕ) : ℕ → ℕ :=
  laneWrite c (i - HASH_SIZE)
    (hf (localFastCtx g) (msgTake c i (64 * ((NONCE_SIZE + 16 - i) >>> 6)))
      (if i % 64 = 0 then t1 else t2))

/-- One saturated-phase step (part_001 lines 172-176, avx512f lines 239-243),
per lane: hash `HASH_CAP >> 6` blocks from cache offset `i` with termination
T3, output at `i - HASH_SIZE`. -/
def laneSatStep {Ctx : Type} (hf : Ctx → List ℕ → List ℕ → ℕ → ℕ) (g : Ctx)
    (c : ℕ → ℕ) (i : ℕ) : ℕ → ℕ :=
  laneWrite c (i - HASH_SIZE)
    (hf (localFastCtx g) (msgTake c i (64 * (HASH_CAP >>> 6))) termT3List)

/-- Per-lane cache after the whole hash chain of one nonce. -/
def laneCacheFinal {Ctx : Type} (hf : Ctx → List ℕ → List ℕ → ℕ → ℕ) (g : Ctx)
    (numeric_id nonceNo : ℕ) : ℕ → ℕ :=
  satList.foldl (laneSatStep hf g)
    (earlyList.foldl (laneEarlyStep hf g (seedT1 numeric_id nonceNo) (laneT2 hf g numeric_id nonceNo))
      (laneCache1 hf g numeric_id nonceNo))

/-- Per-lane final whole-nonce digest (part_001 lines 179-180, avx512f lines
246-247): `(NONCE_SIZE + 16) >> 6` blocks from cache offset 0 with
termination T1, into the scratch buffer. -/
def laneFinalHash {Ctx : Type} (hf : Ctx → List ℕ → List ℕ → ℕ → ℕ) (g : Ctx)
    (numeric_id nonceNo : ℕ) : ℕ → ℕ :=
  hf (localFastCtx g)
    (msgTake (laneCacheFinal hf g numeric_id nonceNo) 0 (64 * ((NONCE_SIZE + 16) >>> 6)))
    (seedT1 numeric_id nonceNo)

/-- Per-lane reference nonce: the hash chain XORed with the final digest
(part_001 lines 184-190, avx512f lines 251-257; per lane, byte `r` is XORed
with final-digest byte `r % HASH_SIZE`). -/
def lanePlot {Ctx : Type} (hf : Ctx → List ℕ → List ℕ → ℕ → ℕ) (g : Ctx)
    (numeric_id nonceNo : ℕ) : ℕ → ℕ :=
  fun r => laneCacheFinal hf g numeric_id nonceNo r ^^^
    laneFinalHash hf g numeric_id nonceNo (r % HASH_SIZE)

/-- Write one interleaved 32-byte hash output (32·B bytes) at byte address
`off * B` of the width-B interleaved cache: byte `k` of lane `b` goes to
`(off + k) * B + b`. -/
def cacheWrite (B : ℕ) (c : ℕ → ℕ) (off : ℕ) (vals : ℕ → ℕ → ℕ) : ℕ → ℕ :=
  fun a => if off * B ≤ a ∧ a < (off + HASH_SIZE) * B
    then vals ((a - off * B) % B) ((a - off * B) / B) else c a

/-- De-interleaved view of lane `b` of a width-B interleaved cache. -/
def laneView (B : ℕ) (c : ℕ → ℕ) (b : ℕ) : ℕ → ℕ := fun r => c (r * B + b)

/-- The `len` bytes of lane `b` starting at per-lane offset `off`. -/
def laneTake (B : ℕ) (c : ℕ → ℕ) (b off len : ℕ) : List ℕ :=
  (List.range len).map fun k => laneView B c b (off + k)

/-- Width-B batch engine: interleaved cache after round 1.  Lane `b` of the
batch starting at loop counter `n` works on nonce number
`local_startnonce + n + b` (part_001 lines 102-109, avx512f lines 144-159). -/
def batchCache1 {Ctx : Type} (B : ℕ) (hf : Ctx → List ℕ → List ℕ → ℕ → ℕ) (g : Ctx)
    (numeric_id start n : ℕ) : ℕ → ℕ :=
  cacheWrite B (fun _ => 0) (NONCE_SIZE - HASH_SIZE)
    (fun b => round1Out hf g numeric_id (start + n + b))

/-- Width-B batch engine: lane `b` of template T2 after the `memcpy` of the
round-1 output from the interleaved cache. -/
def batchT2 {Ctx : Type} (B : ℕ) (hf : Ctx → List ℕ → List ℕ → ℕ → ℕ) (g : Ctx)
    (numeric_id start n : ℕ) (b : ℕ) : List ℕ :=
  laneTake B (batchCache1 B hf g numeric_id start n) b (NONCE_SIZE - HASH_SIZE) HASH_SIZE ++
    listOf (seedLane numeric_id (start + n + b)) HASH_SIZE

/-- Width-B batch engine: one early-phase step on the interleaved cache. -/
def batchEarlyStep {Ctx : Type} (B : ℕ) (hf : Ctx → List ℕ → List ℕ → ℕ → ℕ) (g : Ctx)
    (t1 t2 : ℕ → List ℕ) (c : ℕ → ℕ) (i : ℕ) : ℕ → ℕ :=
  cacheWrite B c (i - HASH_SIZE)
    (fun b => hf (localFastCtx g) (laneTake B c b i (64 * ((NONCE_SIZE + 16 - i) >>> 6)))
      (if i % 64 = 0 then t1 b else t2 b))

/-- Width-B batch engine: one saturated-phase step on the interleaved cache. -/
def batchSatStep {Ctx : Type} (B : ℕ) (hf : Ctx → List ℕ → List ℕ → ℕ → ℕ) (g : Ctx)
    (c : ℕ → ℕ) (i : ℕ) : ℕ → ℕ :=
  cacheWrite B c (i - HASH_SIZE)
    (fun b => hf (localFastCtx g) (laneTake B c b i (64 * (HASH_CAP >>> 6))) termT3List)

/-- Width-B batch engine: interleaved cache after the whole hash chain. -/
def batchCacheFinal {Ctx : Type} (B : ℕ) (hf : Ctx → List ℕ → List ℕ → ℕ → ℕ) (g : Ctx)
    (numeric_id start n : ℕ) : ℕ → ℕ :=
  satList.foldl (batchSatStep B hf g)
    (earlyList.foldl
      (batchEarlyStep B hf g (fun b => seedT1 numeric_id (start + n + b))
        (batchT2 B hf g numeric_id start n))
      (batchCache1 B hf g numeric_id start n))

/-- Width-B batch engine: lane `b` of the final whole-nonce digest. -/
def batchFinalHash {Ctx : Type} (B : ℕ) (hf : Ctx → List ℕ → List ℕ → ℕ → ℕ) (g : Ctx)
    (numeric_id start n : ℕ) (b : ℕ) : ℕ → ℕ :=
  hf (localFastCtx g)
    (laneTake B (batchCacheFinal B hf g numeric_id start n) b 0 (64 * ((NONCE_SIZE + 16) >>> 6)))
    (seedT1 numeric_id (start + n + b))

/-- Width-B batch engine: the finished interleaved batch, after the XOR-mask
pass.  Interleaved byte `a` belongs to lane `a % B` at per-lane offset
`a / B` and is XORed with final-digest byte `(a % (HASH_SIZE * B)) / B` of
that lane (the source XOR loop cycles through the 8 interleaved 32-lane-byte
vectors of the `final` buffer). -/
def noncegenBatch {Ctx : Type} (B : ℕ) (hf : Ctx → List ℕ → List ℕ → ℕ → ℕ) (g : Ctx)
    (numeric_id start n : ℕ) : ℕ → ℕ :=
  fun a => batchCacheFinal B hf g numeric_id start n a ^^^
    batchFinalHash B hf g numeric_id start n (a % B) (a % (HASH_SIZE * B) / B)

/-- De-interleaved nonce `k` as produced by the width-B engine: lane `k % B`
of the batch whose loop counter is `B * (k / B)`. -/
def noncegenOut {Ctx : Type} (B : ℕ) (hf : Ctx → List ℕ → List ℕ → ℕ → ℕ) (g : Ctx)
    (numeric_id start k : ℕ) : ℕ → ℕ :=
  laneView B (noncegenBatch B hf g numeric_id start (B * (k / B))) (k % B)

/-- Digit extraction for a base-256 expansion of eight bounded digits. -/
theorem digit_extract (S b0 b1 b2 b3 b4 b5 b6 b7 : ℕ)
    (hS : S = b0 + b1 * 256 + b2 * 65536 + b3 * 16777216 + b4 * 4294967296 +
      b5 * 1099511627776 + b6 * 281474976710656 + b7 * 72057594037927936)
    (h0 : b0 < 256) (h1 : b1 < 256) (h2 : b2 < 256) (h3 : b3 < 256)
    (h4 : b4 < 256) (h5 : b5 < 256) (h6 : b6 < 256) (h7 : b7 < 256) :
    S / 1 % 256 = b0 ∧ S / 256 % 256 = b1 ∧ S / 65536 % 256 = b2 ∧
    S / 16777216 % 256 = b3 ∧ S / 4294967296 % 256 = b4 ∧
    S / 1099511627776 % 256 = b5 ∧ S / 281474976710656 % 256 = b6 ∧
    S / 72057594037927936 % 256 = b7 := by
  subst hS
  refine ⟨by omega, by omega, by omega, by omega, by omega, by omega, by omega, by omega⟩

/-- Memory byte `j` of the stored `bswap_64 x` is big-endian byte `j` of `x`. -/
theorem byteAt_bswap_64 (x : ℕ) : ∀ j < 8, byteAt (bswap_64 x) j = byteAt x (7 - j) := by
  have hlt : ∀ i : ℕ, byteAt x i < 256 := fun i => Nat.mod_lt _ (by norm_num)
  obtain ⟨e0, e1, e2, e3, e4, e5, e6, e7⟩ :=
    digit_extract (bswap_64 x) (byteAt x 7) (byteAt x 6) (byteAt x 5) (byteAt x 4)
      (byteAt x 3) (byteAt x 2) (byteAt x 1) (byteAt x 0)
      (by unfold bswap_64; norm_num)
      (hlt 7) (hlt 6) (hlt 5) (hlt 4) (hlt 3) (hlt 2) (hlt 1) (hlt 0)
  intro j hj
  interval_cases j
  · exact e0
  · exact e1
  · exact e2
  · exact e3
  · exact e4
  · exact e5
  · exact e6
  · exact e7

/-- Claim C3 counterexample: byte 16 of the seed block is the Shabal
termination marker 0x80, not zero, so the seed block does not end in 16 zero
bytes as claimed. -/
theorem seed_block_byte16_not_zero :
    seedLane 0 0 16 = 128 ∧ ¬ seedLane 0 0 16 = 0 := by
  constructor <;> decide

/-- Claim C3 (amended): the 32-byte seed block used by noncegen consists of
the big-endian 64-bit numeric identifier, then the big-endian 64-bit nonce
index (rewritten per lane inside the batch loop), then the byte 0x80 followed
by 15 zero bytes. -/
theorem seed_block_layout (numeric_id nonceNo k : ℕ)
    (hid : numeric_id < 2 ^ 64) (hno : nonceNo < 2 ^ 64) (hk : k < 32) :
    seedLane numeric_id nonceNo k =
      if k < 8 then beByte numeric_id k
      else if k < 16 then beByte nonceNo (k - 8)
      else if k = 16 then 128
      else 0 := by
  rcases lt_or_ge k 8 with h8 | h8
  · rw [if_pos h8]
    have hL : seedLane numeric_id nonceNo k = byteAt (bswap_64 numeric_id) k := by
      unfold seedLane write_seed
      rw [if_neg (by omega), if_pos h8]
    rw [hL, byteAt_bswap_64 numeric_id k (by omega)]
    rfl
  · rcases lt_or_ge k 16 with h16 | h16
    · rw [if_neg (by omega), if_pos h16]
      have hL : seedLane numeric_id nonceNo k = byteAt (bswap_64 nonceNo) (k - 8) := by
        unfold seedLane
        rw [if_pos ⟨h8, h16⟩]
      rw [hL, byteAt_bswap_64 nonceNo (k - 8) (by omega)]
      rfl
    · have hL : seedLane numeric_id nonceNo k = write_seed numeric_id k := by
        unfold seedLane
        rw [if_neg (by omega)]
      rw [hL]
      unfold write_seed
      split_ifs <;> omega

/-- Claim C3 witness: the amended layout evaluated at a concrete input. -/
theorem seed_block_layout_witness :
    seedLane 5 7 15 = beByte 7 7 ∧ seedLane 5 7 16 = 128 := by
  constructor
  · have h := seed_block_layout 5 7 15 (by decide) (by decide) (by decide)
    simpa using h
  · have h := seed_block_layout 5 7 16 (by decide) (by decide) (by decide)
    simpa using h

/-- Closed form of the descending loop when the step divides the distance. -/
theorem descRangeAux_spec (step : ℕ) (hstep : 0 < step) :
    ∀ (n stop i fuel : ℕ), i = stop + step * n → n ≤ fuel →
      descRangeAux fuel stop step i = (List.range n).map (fun k => i - step * k) := by
  intro n
  induction n with
  | zero =>
    intro stop i fuel hi _
    cases fuel with
    | zero => rfl
    | succ f =>
      rw [descRangeAux, if_neg (by omega)]
      rfl
  | succ m ih =>
    intro stop i fuel hi hf
    obtain ⟨f, rfl⟩ : ∃ f, fuel = f + 1 := ⟨fuel - 1, by omega⟩
    have hlt : stop < i := by
      have : 0 < step * (m + 1) := by positivity
      omega
    have hstep' : i - step = stop + step * m := by
      have : step * (m + 1) = step * m + step := by ring
      omega
    rw [descRangeAux, if_pos hlt, ih stop (i - step) f hstep' (by omega)]
    rw [List.range_succ_eq_map, List.map_cons, List.map_map]
    refine congrArg₂ _ (by omega) ?_
    refine List.map_congr_left fun k _ => ?_
    simp only [Function.comp_apply, Nat.succ_eq_add_one, Nat.mul_add, Nat.mul_one, Nat.sub_sub]
    omega

theorem earlyList_eq : earlyList = (List.range 127).map (fun k => 262112 - 32 * k) := by
  have h := descRangeAux_spec 32 (by norm_num) 127 258048 262112 262112 (by norm_num) (by norm_num)
  simpa [earlyList, descRange, NONCE_SIZE, HASH_SIZE, HASH_CAP] using h

theorem satList_eq : satList = (List.range 8064).map (fun k => 258048 - 32 * k) := by
  have h := descRangeAux_spec 32 (by norm_num) 8064 0 258048 258048 (by norm_num) (by norm_num)
  simpa [satList, descRange, NONCE_SIZE, HASH_SIZE, HASH_CAP] using h

/-- Claim C4: the early phase performs 127 steps; the step writing hash index
`8190 - k` (hash indices 8190 down to 8064) reads its message at byte offset
`(8191 - k) * HASH_SIZE` (scaled by B in the cache), terminates with T1 when
that offset is divisible by 64 and with T2 otherwise, and writes its 32-byte
output one hash below the message start. -/
theorem noncegen_early_phase_schedule :
    earlyList.map earlyCall = (List.range 127).map (fun k =>
      { msgOff := some ((8191 - k) * HASH_SIZE)
        tmpl := if (8191 - k) * HASH_SIZE % 64 = 0 then Tmpl.T1 else Tmpl.T2
        outOff := some ((8190 - k) * HASH_SIZE)
        blocks := (NONCE_SIZE + 16 - (8191 - k) * HASH_SIZE) >>> 6 }) ∧
    earlyList.length = 127 ∧ (∀ k < 127, 8064 ≤ 8190 - k) := by
  refine ⟨?_, by rw [earlyList_eq]; simp, by omega⟩
  rw [earlyList_eq, List.map_map]
  refine List.map_congr_left fun k hk => ?_
  have hk' : k < 127 := List.mem_range.mp hk
  have h1 : 262112 - 32 * k = (8191 - k) * HASH_SIZE := by
    simp only [HASH_SIZE]; omega
  simp only [Function.comp_apply, earlyCall, h1, HASH_SIZE]
  have h2 : (8191 - k) * 32 - 32 = (8190 - k) * 32 := by omega
  rw [h2]

/-- Claim C5: the saturated phase performs 8064 steps; the step writing hash
index `8063 - k` (down to hash 0) compresses one `HASH_CAP`-byte window of
`HASH_CAP / HASH_SIZE = 128` contiguous interleaved hashes starting at byte
offset `(8064 - k) * HASH_SIZE` (scaled by B), terminated with template T3,
and writes its output one hash below the window start.  Each step starts
from the unmodified local clone of the process-wide fast context
(`localFastCtx`, defined below with the engines). -/
theorem noncegen_saturated_phase_schedule :
    satList.map satCall = (List.range 8064).map (fun k =>
      { msgOff := some ((8064 - k) * HASH_SIZE)
        tmpl := Tmpl.T3
        outOff := some ((8063 - k) * HASH_SIZE)
        blocks := HASH_CAP >>> 6 }) ∧
    64 * (HASH_CAP >>> 6) = HASH_CAP ∧ HASH_CAP / HASH_SIZE = 128 ∧
    (∀ (C : Type) (gc : C), localFastCtx gc = gc) := by
  refine ⟨?_, by decide, by decide, fun C gc => rfl⟩
  rw [satList_eq, List.map_map]
  refine List.map_congr_left fun k hk => ?_
  have hk' : k < 8064 := List.mem_range.mp hk
  have h1 : 258048 - 32 * k = (8064 - k) * HASH_SIZE := by
    simp only [HASH_SIZE]; omega
  simp only [Function.comp_apply, satCall, h1, HASH_SIZE]
  have h2 : (8064 - k) * 32 - 32 = (8063 - k) * 32 := by omega
  rw [h2]

/-- Claim C8 counterexample: one batch iteration performs 8193 Shabal
invocations before the XOR-mask pass (8192 chain hashes plus the final
whole-nonce digest), not 8192. -/
theorem batch_shabal_count_ne_8192 : ¬ batchCalls.length = 8192 := by
  rw [batchCalls]
  simp [earlyList_eq, satList_eq]

/-- Claim C8 (amended): before the whole-nonce XOR-mask pass, each batch
performs exactly 8193 Shabal invocations: 8192 of them write the nonce's
hash chain into the cache (hash indices 8191 down to 0), and one final
whole-nonce digest invocation produces the XOR mask in the scratch buffer. -/
theorem batch_shabal_count_8193 :
    batchCalls.length = 8193 ∧
    (batchCalls.filter (fun c => c.outOff.isSome)).length = 8192 := by
  constructor
  · rw [batchCalls]
    simp [earlyList_eq, satList_eq]
  · rw [batchCalls]
    rw [List.filter_cons_of_pos (by rfl)]
    rw [List.filter_append, List.filter_append]
    rw [List.filter_eq_self.mpr ?_, List.filter_eq_self.mpr ?_]
    · simp [earlyList_eq, satList_eq, List.filter_cons]
    · intro c hc
      obtain ⟨i, _, rfl⟩ := List.mem_map.mp hc
      rfl
    · intro c hc
      obtain ⟨i, _, rfl⟩ := List.mem_map.mp hc
      rfl

theorem ascLoopIters_eq (B : ℕ) (hB : 0 < B) :
    ∀ (fuel i n : ℕ), n - i ≤ fuel → ascLoopIters fuel i n B = (n - i + B - 1) / B := by
  intro fuel
  induction fuel with
  | zero =>
    intro i n h
    show 0 = (n - i + B - 1) / B
    have h0 : n - i = 0 := by omega
    rw [h0]
    exact (Nat.div_eq_of_lt (by omega)).symm
  | succ f ih =>
    intro i n h
    rw [ascLoopIters]
    split_ifs with hin
    · rw [ih (i + B) n (by omega)]
      have hm : 0 < n - i := by omega
      rcases le_or_lt B (n - i) with hge | hlt
      · have e1 : n - (i + B) + B - 1 = n - i - 1 := by omega
        have e2 : n - i + B - 1 = n - i - 1 + B := by omega
        rw [e1, e2, Nat.add_div_right _ hB]
        omega
      · have e1 : n - (i + B) + B - 1 = B - 1 := by omega
        have e2 : n - i + B - 1 = n - i - 1 + B := by omega
        have d1 : (B - 1) / B = 0 := Nat.div_eq_of_lt (by omega)
        have d2 : (n - i - 1) / B = 0 := Nat.div_eq_of_lt (by omega)
        rw [e1, e2, Nat.add_div_right _ hB, d1, d2]
    · have h0 : n - i = 0 := by omega
      rw [h0]
      exact (Nat.div_eq_of_lt (by omega)).symm

/-- Claim C10: the batch loop always terminates; it runs `⌈local_nonces/B⌉`
iterations (so exactly `local_nonces / B` when the precondition
`local_nonces % B == 0` holds), generating `B * ⌈local_nonces/B⌉ ≥
local_nonces` nonces — the count is rounded up, not down. -/
theorem noncegen_loop_iterations (local_nonces B : ℕ) (hB : 0 < B)
    (hov : local_nonces + B < 2 ^ 64) :
    noncegenIters local_nonces B = (local_nonces + B - 1) / B ∧
    (local_nonces % B = 0 → noncegenIters local_nonces B = local_nonces / B) ∧
    B * noncegenIters local_nonces B = B * ((local_nonces + B - 1) / B) ∧
    local_nonces ≤ B * noncegenIters local_nonces B := by
  have hmain : noncegenIters local_nonces B = (local_nonces + B - 1) / B := by
    have h := ascLoopIters_eq B hB local_nonces 0 local_nonces (by omega)
    simpa [noncegenIters] using h
  refine ⟨hmain, ?_, by rw [hmain], ?_⟩
  · intro hmod
    obtain ⟨q, rfl⟩ := Nat.dvd_of_mod_eq_zero hmod
    rw [hmain, Nat.mul_div_cancel_left q hB]
    rcases Nat.eq_zero_or_pos q with rfl | hq
    · simp [Nat.div_eq_of_lt (by omega : B - 1 < B)]
    · have hX : B ≤ B * q := Nat.le_mul_of_pos_right B hq
      have e1 : B * q + B - 1 = B * q - 1 + B := by omega
      have e2 : B * q - 1 = B * (q - 1) + (B - 1) := by
        have e3 : B * q = B * (q - 1) + B := by
          rw [← Nat.mul_succ]
          congr 1
          omega
        omega
      rw [e1, Nat.add_div_right _ hB, e2, Nat.mul_add_div hB,
        Nat.div_eq_of_lt (by omega : B - 1 < B)]
      omega
  · rw [hmain]
    have h1 := Nat.div_add_mod (local_nonces + B - 1) B
    have h2 := Nat.mod_lt (local_nonces + B - 1) hB
    omega

/-- Claim C10 witness: at `local_nonces = 12`, `B = 8` the loop runs
`⌈12/8⌉ = 2` iterations and generates 16 ≥ 12 nonces. -/
theorem noncegen_loop_iterations_witness :
    noncegenIters 12 8 = (12 + 8 - 1) / 8 ∧
    (12 % 8 = 0 → noncegenIters 12 8 = 12 / 8) ∧
    8 * noncegenIters 12 8 = 8 * ((12 + 8 - 1) / 8) ∧
    12 ≤ 8 * noncegenIters 12 8 :=
  noncegen_loop_iterations 12 8 (by decide) (by decide)

theorem foldl_congr_mem {α β : Type} (l : List β) (f f' : α → β → α) (st : α)
    (h : ∀ (a : α) (x : β), x ∈ l → f a x = f' a x) : l.foldl f st = l.foldl f' st := by
  induction l generalizing st with
  | nil => rfl
  | cons x xs ih =>
    rw [List.foldl_cons, List.foldl_cons, h st x (by simp)]
    exact ih _ fun a y hy => h a y (by simp [hy])

theorem range_mul_foldl {α : Type} (f : α → ℕ → α) (B : ℕ) :
    ∀ (q : ℕ) (st : α), (List.range (q * B)).foldl f st =
      ((List.range q).map (· * B)).foldl
        (fun st i => (List.range B).foldl (fun st b => f st (i + b)) st) st := by
  intro q
  induction q with
  | zero =>
    intro st
    rw [Nat.zero_mul]
    rfl
  | succ m ih =>
    intro st
    have h1 : (m + 1) * B = m * B + B := by ring
    rw [h1, List.range_add, List.foldl_append, ih, List.range_succ, List.map_append,
      List.foldl_append, List.foldl_map]
    rfl

/-- The batched double loop visits the nonce offsets `0 .. n-1` linearly. -/
theorem find_best_core_eq_bestFold {Ctx : Type} (sh : Ctx → List ℕ → ℕ → ℕ) (g : Ctx)
    (B : ℕ) (data gensig : ℕ → ℕ) (scoop n : ℕ) (st0 : ℕ × ℕ)
    (hB : 0 < B) (hmod : n % B = 0) :
    find_best_core sh g B data gensig scoop n st0 =
      bestFold (nonceDeadline sh g B data gensig scoop) n st0 := by
  obtain ⟨q, rfl⟩ := Nat.dvd_of_mod_eq_zero hmod
  unfold find_best_core bestFold
  rw [Nat.mul_div_cancel_left q hB, Nat.mul_comm B q,
    range_mul_foldl (fun st j => SET_BEST_DEADLINE st (nonceDeadline sh g B data gensig scoop j) j) B q]
  refine foldl_congr_mem _ _ _ _ fun a i hi => ?_
  obtain ⟨m, _, rfl⟩ := List.mem_map.mp hi
  refine foldl_congr_mem _ _ _ _ fun a' b hb => ?_
  have hb' : b < B := List.mem_range.mp hb
  have hdiv : (m * B + b) / B = m := by
    rw [Nat.mul_comm m B, Nat.mul_add_div hB, Nat.div_eq_of_lt hb', Nat.add_zero]
  have hmod' : (m * B + b) % B = b := by
    rw [Nat.mul_comm m B, Nat.mul_add_mod, Nat.mod_eq_of_lt hb']
  rw [nonceDeadline, hdiv, hmod', Nat.mul_comm B m]

/-- The linear reduction computes the minimum and its first attaining offset
whenever all deadlines are nonzero. -/
theorem bestFold_min (dl : ℕ → ℕ) :
    ∀ n : ℕ, 0 < n → (∀ j < n, 0 < dl j) → ∀ o0 : ℕ,
      (bestFold dl n (0, o0)).2 < n ∧
      dl (bestFold dl n (0, o0)).2 = (bestFold dl n (0, o0)).1 ∧
      (∀ j < n, (bestFold dl n (0, o0)).1 ≤ dl j) ∧
      (∀ j < (bestFold dl n (0, o0)).2, (bestFold dl n (0, o0)).1 < dl j) := by
  intro n
  induction n with
  | zero => intro h; omega
  | succ m ih =>
    intro _ hpos o0
    have hstep : bestFold dl (m + 1) (0, o0) =
        SET_BEST_DEADLINE (bestFold dl m (0, o0)) (dl m) m := by
      unfold bestFold
      rw [List.range_succ, List.foldl_append]
      rfl
    rcases Nat.eq_zero_or_pos m with rfl | hm
    · have h0 : bestFold dl 0 (0, o0) = (0, o0) := rfl
      rw [hstep, h0, SET_BEST_DEADLINE, if_pos (Or.inl rfl)]
      refine ⟨by omega, rfl, ?_, by omega⟩
      intro j hj
      have : j = 0 := by omega
      rw [this]
    · obtain ⟨ih1, ih2, ih3, ih4⟩ := ih hm (fun j hj => hpos j (by omega)) o0
      have hst1 : 0 < (bestFold dl m (0, o0)).1 := ih2 ▸ hpos _ (by omega)
      rw [hstep]
      unfold SET_BEST_DEADLINE
      split_ifs with hcond
      · have hlt : dl m < (bestFold dl m (0, o0)).1 := by
          rcases hcond with h | h
          · omega
          · exact h
        refine ⟨by omega, rfl, ?_, ?_⟩
        · intro j hj
          rcases lt_or_ge j m with hjm | hjm
          · exact le_of_lt (lt_of_lt_of_le hlt (ih3 j hjm))
          · have : j = m := by omega
            rw [this]
        · intro j hj
          exact lt_of_lt_of_le hlt (ih3 j (by omega))
      · push_neg at hcond
        refine ⟨by omega, ih2, ?_, ih4⟩
        intro j hj
        rcases lt_or_ge j m with hjm | hjm
        · exact ih3 j hjm
        · have : j = m := by omega
          rw [this]
          exact hcond.2

/-- Claim C1: for any vector width B, with `*best_deadline` seeded to 0 (and
any seeded offset), `nonce_count` a multiple of B and every per-nonce
deadline nonzero (the zero-sentinel proviso), after the call `best_deadline`
is the minimum of the deadlines over offsets `0 .. nonce_count-1` and
`best_offset` is the smallest offset attaining it (lanes are visited in
order within each batch, so ties keep the earlier offset). -/
theorem find_best_deadline_min_correct {Ctx : Type} (sh : Ctx → List ℕ → ℕ → ℕ) (g : Ctx)
    (B : ℕ) (data gensig : ℕ → ℕ) (scoop n o0 : ℕ)
    (hB : 0 < B) (hmod : n % B = 0) (hn : 0 < n)
    (hnz : ∀ j < n, 0 < nonceDeadline sh g B data gensig scoop j) :
    (find_best_core sh g B data gensig scoop n (0, o0)).2 < n ∧
    nonceDeadline sh g B data gensig scoop (find_best_core sh g B data gensig scoop n (0, o0)).2 =
      (find_best_core sh g B data gensig scoop n (0, o0)).1 ∧
    (∀ j < n, (find_best_core sh g B data gensig scoop n (0, o0)).1 ≤
      nonceDeadline sh g B data gensig scoop j) ∧
    (∀ j < (find_best_core sh g B data gensig scoop n (0, o0)).2,
      (find_best_core sh g B data gensig scoop n (0, o0)).1 <
        nonceDeadline sh g B data gensig scoop j) := by
  rw [find_best_core_eq_bestFold sh g B data gensig scoop n (0, o0) hB hmod]
  exact bestFold_min (nonceDeadline sh g B data gensig scoop) n hn hnz o0

/-- Claim C1 witness: two batches of width 2 with constant nonzero deadlines
keep the first offset. -/
theorem find_best_deadline_min_correct_witness :
    (find_best_core (fun _ _ _ => 1) 0 2 (fun _ => 0) (fun _ => 0) 0 4 (0, 5)).2 < 4 ∧
    nonceDeadline (fun _ _ _ => 1) 0 2 (fun _ => 0) (fun _ => 0) 0
        (find_best_core (fun _ _ _ => 1) 0 2 (fun _ => 0) (fun _ => 0) 0 4 (0, 5)).2 =
      (find_best_core (fun _ _ _ => 1) 0 2 (fun _ => 0) (fun _ => 0) 0 4 (0, 5)).1 ∧
    (∀ j < 4, (find_best_core (fun _ _ _ => 1) 0 2 (fun _ => 0) (fun _ => 0) 0 4 (0, 5)).1 ≤
      nonceDeadline (fun _ _ _ => 1) 0 2 (fun _ => 0) (fun _ => 0) 0 j) ∧
    (∀ j < (find_best_core (fun _ _ _ => 1) 0 2 (fun _ => 0) (fun _ => 0) 0 4 (0, 5)).2,
      (find_best_core (fun _ _ _ => 1) 0 2 (fun _ => 0) (fun _ => 0) 0 4 (0, 5)).1 <
        nonceDeadline (fun _ _ _ => 1) 0 2 (fun _ => 0) (fun _ => 0) 0 j) :=
  @find_best_deadline_min_correct ℕ (fun _ _ _ => 1) 0 2 (fun _ => 0) (fun _ => 0) 0 4 5
    (by decide) (by decide) (by decide) (by decide)

/-- Claim C7: the deadline engine's batch-`i` lane-`b` hash is one Shabal
over `gensig || u1 || u2 || term` (128 bytes, two 64-byte blocks per lane),
with `u1` at `data + i*NONCE_SIZE + s*SCOOP_SIZE*B` — the first hash of
scoop `s`, hash index `2s` — and `u2` at `data + i*NONCE_SIZE +
(4095-s)*SCOOP_SIZE*B + HASH_SIZE*B` — the second hash of the mirror scoop
`4095 - s`, hash index `2(4095-s)+1`. -/
theorem deadline_message_layout {Ctx : Type} (sh : Ctx → List ℕ → ℕ → ℕ) (g : Ctx)
    (B : ℕ) (data gensig : ℕ → ℕ) (scoop i b : ℕ) (hs : scoop ≤ 4095) :
    u1Addr B scoop i = i * NONCE_SIZE + 2 * scoop * (HASH_SIZE * B) ∧
    u2Addr B scoop i = i * NONCE_SIZE + (2 * (4095 - scoop) + 1) * (HASH_SIZE * B) ∧
    scoop + (4095 - scoop) = 4095 ∧
    deadlineLane sh g B data gensig scoop i b =
      u64le (sh g (gensigList gensig ++
        slab32 B data (i * NONCE_SIZE + 2 * scoop * (HASH_SIZE * B)) b ++
        slab32 B data (i * NONCE_SIZE + (2 * (4095 - scoop) + 1) * (HASH_SIZE * B)) b ++
        termList)) ∧
    (gensigList gensig ++ slab32 B data (u1Addr B scoop i) b ++
        slab32 B data (u2Addr B scoop i) b ++ termList).length = 4 * HASH_SIZE := by
  have h1 : u1Addr B scoop i = i * NONCE_SIZE + 2 * scoop * (HASH_SIZE * B) := by
    unfold u1Addr SCOOP_SIZE HASH_SIZE
    ring
  have h2 : u2Addr B scoop i = i * NONCE_SIZE + (2 * (4095 - scoop) + 1) * (HASH_SIZE * B) := by
    unfold u2Addr SCOOP_SIZE HASH_SIZE
    ring
  refine ⟨h1, h2, by omega, ?_, ?_⟩
  · rw [deadlineLane, localFastCtx, h1, h2]
  · simp [gensigList, slab32, termList, listOf, HASH_SIZE]

/-- Claim C7 witness: the layout at scoop 10, batch 8, lane 1, width 8. -/
theorem deadline_message_layout_witness :
    u1Addr 8 10 8 = 8 * NONCE_SIZE + 2 * 10 * (HASH_SIZE * 8) ∧
    u2Addr 8 10 8 = 8 * NONCE_SIZE + (2 * (4095 - 10) + 1) * (HASH_SIZE * 8) ∧
    10 + (4095 - 10) = 4095 :=
  have h := @deadline_message_layout ℕ (fun _ _ _ => 0) 0 8 (fun _ => 0) (fun _ => 0)
    10 8 1 (by decide)
  ⟨h.1, h.2.1, h.2.2.1⟩

/-- Claim C9: `find_best_deadline` (any width) never modifies the data cache
or the gensig buffer; the only caller-visible writes are to
`*best_deadline` and `*best_offset`, which receive the reduction result. -/
theorem find_best_deadline_frame {Ctx : Type} (sh : Ctx → List ℕ → ℕ → ℕ) (g : Ctx)
    (B scoop nonce_count : ℕ) (s : MineState) :
    (find_best_deadline sh g B scoop nonce_count s).data = s.data ∧
    (find_best_deadline sh g B scoop nonce_count s).gensig = s.gensig ∧
    ((find_best_deadline sh g B scoop nonce_count s).bestDeadline,
      (find_best_deadline sh g B scoop nonce_count s).bestOffset) =
      find_best_core sh g B s.data s.gensig scoop nonce_count (s.bestDeadline, s.bestOffset) :=
  ⟨rfl, rfl, rfl⟩

theorem laneView_cacheWrite (B : ℕ) (hB : 0 < B) (c : ℕ → ℕ) (off : ℕ)
    (vals : ℕ → ℕ → ℕ) (b : ℕ) (hb : b < B) :
    laneView B (cacheWrite B c off vals) b = laneWrite (laneView B c b) off (vals b) := by
  funext r
  unfold laneView cacheWrite laneWrite
  by_cases h : off ≤ r ∧ r < off + HASH_SIZE
  · have hcond : off * B ≤ r * B + b ∧ r * B + b < (off + HASH_SIZE) * B := by
      constructor
      · exact le_trans (Nat.mul_le_mul_right B h.1) (Nat.le_add_right _ _)
      · have h1 : r * B + b < (r + 1) * B := by
          have : (r + 1) * B = r * B + B := by ring
          omega
        exact lt_of_lt_of_le h1 (Nat.mul_le_mul_right B (by omega))
    rw [if_pos hcond, if_pos h]
    have hsub : r * B + b - off * B = (r - off) * B + b := by
      have : (r - off) * B + off * B = r * B := by
        rw [← Nat.add_mul]
        congr 1
        omega
      omega
    have hm : ((r - off) * B + b) % B = b := by
      rw [Nat.mul_comm (r - off) B, Nat.mul_add_mod, Nat.mod_eq_of_lt hb]
    have hd : ((r - off) * B + b) / B = r - off := by
      rw [Nat.mul_comm (r - off) B, Nat.mul_add_div hB, Nat.div_eq_of_lt hb, Nat.add_zero]
    rw [hsub, hm, hd]
  · have hcond : ¬ (off * B ≤ r * B + b ∧ r * B + b < (off + HASH_SIZE) * B) := by
      intro hc
      apply h
      constructor
      · by_contra hlt
        push_neg at hlt
        have h1 : r * B + b < (r + 1) * B := by
          have : (r + 1) * B = r * B + B := by ring
          omega
        have h2 : (r + 1) * B ≤ off * B := Nat.mul_le_mul_right B (by omega)
        omega
      · by_contra hge
        push_neg at hge
        have h2 : (off + HASH_SIZE) * B ≤ r * B := Nat.mul_le_mul_right B hge
        omega
    rw [if_neg hcond, if_neg h]

theorem foldl_transport {α β γ : Type} (f : α → γ) (g₁ : α → β → α) (g₂ : γ → β → γ)
    (l : List β) (init : α) (H : ∀ (a : α) (y : β), f (g₁ a y) = g₂ (f a) y) :
    f (l.foldl g₁ init) = l.foldl g₂ (f init) := by
  induction l generalizing init with
  | nil => rfl
  | cons x xs ih => rw [List.foldl_cons, List.foldl_cons, ih, H]

theorem batchCache1_deint {Ctx : Type} (hf : Ctx → List ℕ → List ℕ → ℕ → ℕ) (g : Ctx)
    (B numeric_id start n b : ℕ) (hB : 0 < B) (hb : b < B) :
    laneView B (batchCache1 B hf g numeric_id start n) b =
      laneCache1 hf g numeric_id (start + n + b) := by
  unfold batchCache1 laneCache1
  rw [laneView_cacheWrite B hB _ _ _ b hb]
  rfl

theorem batchT2_deint {Ctx : Type} (hf : Ctx → List ℕ → List ℕ → ℕ → ℕ) (g : Ctx)
    (B numeric_id start n b : ℕ) (hB : 0 < B) (hb : b < B) :
    batchT2 B hf g numeric_id start n b = laneT2 hf g numeric_id (start + n + b) := by
  unfold batchT2 laneT2
  have h : laneTake B (batchCache1 B hf g numeric_id start n) b (NONCE_SIZE - HASH_SIZE) HASH_SIZE =
      msgTake (laneView B (batchCache1 B hf g numeric_id start n) b) (NONCE_SIZE - HASH_SIZE)
        HASH_SIZE := rfl
  rw [h, batchCache1_deint hf g B numeric_id start n b hB hb]

theorem interleave_mask_index (B r b : ℕ) (hB : 0 < B) (hb : b < B) :
    (r * B + b) % (HASH_SIZE * B) / B = r % HASH_SIZE := by
  have hr := Nat.div_add_mod r HASH_SIZE
  have hs : r % HASH_SIZE < HASH_SIZE := Nat.mod_lt _ (by norm_num [HASH_SIZE])
  have hrw : r * B + b = HASH_SIZE * B * (r / HASH_SIZE) + (r % HASH_SIZE * B + b) := by
    have h0 : r = HASH_SIZE * (r / HASH_SIZE) + r % HASH_SIZE := by omega
    calc r * B + b = (HASH_SIZE * (r / HASH_SIZE) + r % HASH_SIZE) * B + b := by rw [← h0]
      _ = HASH_SIZE * B * (r / HASH_SIZE) + (r % HASH_SIZE * B + b) := by ring
  have hlt : r % HASH_SIZE * B + b < HASH_SIZE * B := by
    have h1 : r % HASH_SIZE * B + b < (r % HASH_SIZE + 1) * B := by
      have : (r % HASH_SIZE + 1) * B = r % HASH_SIZE * B + B := by ring
      omega
    exact lt_of_lt_of_le h1 (Nat.mul_le_mul_right B (by omega))
  rw [hrw, Nat.mul_add_mod, Nat.mod_eq_of_lt hlt, Nat.mul_comm (r % HASH_SIZE) B,
    Nat.mul_add_div hB, Nat.div_eq_of_lt hb, Nat.add_zero]

/-- De-interleaving the width-B batch engine at lane `b` yields the per-lane
reference chain on nonce number `start + n + b`: within a batch every cache
write and read is lane-parallel, so the interleaved computation restricted
to one lane is the per-lane chain. -/
theorem noncegenBatch_deint {Ctx : Type} (hf : Ctx → List ℕ → List ℕ → ℕ → ℕ) (g : Ctx)
    (B numeric_id start n b : ℕ) (hB : 0 < B) (hb : b < B) :
    laneView B (noncegenBatch B hf g numeric_id start n) b =
      lanePlot hf g numeric_id (start + n + b) := by
  have hearly : ∀ (c : ℕ → ℕ) (i : ℕ),
      laneView B (batchEarlyStep B hf g (fun b' => seedT1 numeric_id (start + n + b'))
        (batchT2 B hf g numeric_id start n) c i) b =
      laneEarlyStep hf g (seedT1 numeric_id (start + n + b))
        (laneT2 hf g numeric_id (start + n + b)) (laneView B c b) i := by
    intro c i
    unfold batchEarlyStep laneEarlyStep
    rw [laneView_cacheWrite B hB _ _ _ b hb, batchT2_deint hf g B numeric_id start n b hB hb]
    rfl
  have hsat : ∀ (c : ℕ → ℕ) (i : ℕ),
      laneView B (batchSatStep B hf g c i) b = laneSatStep hf g (laneView B c b) i := by
    intro c i
    unfold batchSatStep laneSatStep
    rw [laneView_cacheWrite B hB _ _ _ b hb]
    rfl
  have hfinalc : laneView B (batchCacheFinal B hf g numeric_id start n) b =
      laneCacheFinal hf g numeric_id (start + n + b) := by
    unfold batchCacheFinal laneCacheFinal
    rw [foldl_transport (fun c => laneView B c b) _ _ satList _ hsat,
      foldl_transport (fun c => laneView B c b) _ _ earlyList _ hearly,
      batchCache1_deint hf g B numeric_id start n b hB hb]
  have hfinalh : batchFinalHash B hf g numeric_id start n b =
      laneFinalHash hf g numeric_id (start + n + b) := by
    unfold batchFinalHash laneFinalHash
    rw [show laneTake B (batchCacheFinal B hf g numeric_id start n) b 0
        (64 * ((NONCE_SIZE + 16) >>> 6)) =
      msgTake (laneView B (batchCacheFinal B hf g numeric_id start n) b) 0
        (64 * ((NONCE_SIZE + 16) >>> 6)) from rfl, hfinalc]
  funext r
  show noncegenBatch B hf g numeric_id start n (r * B + b) = lanePlot hf g numeric_id (start + n + b) r
  unfold noncegenBatch lanePlot
  have hmb : (r * B + b) % B = b := by
    rw [Nat.mul_comm r B, Nat.mul_add_mod, Nat.mod_eq_of_lt hb]
  rw [hmb, interleave_mask_index B r b hB hb, hfinalh]
  have : batchCacheFinal B hf g numeric_id start n (r * B + b) =
      laneCacheFinal hf g numeric_id (start + n + b) r := by
    rw [← hfinalc]
    rfl
  rw [this]

/-- Claim C6: round 1 of each batch stores its 32-byte per-lane output at
cache offset `(NONCE_SIZE - HASH_SIZE) * B`, which is hash index 8191, and
that output is copied into the first 32 per-lane bytes of template T2, so T2
carries `hash[8191] || seed` for the rest of the batch. -/
theorem round1_seeds_t2 {Ctx : Type} (hf : Ctx → List ℕ → List ℕ → ℕ → ℕ) (g : Ctx)
    (B numeric_id start n b : ℕ) (hB : 0 < B) (hb : b < B) :
    (∀ k < HASH_SIZE, laneView B (batchCache1 B hf g numeric_id start n) b
        (NONCE_SIZE - HASH_SIZE + k) = round1Out hf g numeric_id (start + n + b) k) ∧
    batchT2 B hf g numeric_id start n b =
      listOf (round1Out hf g numeric_id (start + n + b)) HASH_SIZE ++
        listOf (seedLane numeric_id (start + n + b)) HASH_SIZE ∧
    (NONCE_SIZE - HASH_SIZE) / HASH_SIZE = 8191 := by
  have hc1 : ∀ k < HASH_SIZE, laneView B (batchCache1 B hf g numeric_id start n) b
      (NONCE_SIZE - HASH_SIZE + k) = round1Out hf g numeric_id (start + n + b) k := by
    intro k hk
    rw [batchCache1_deint hf g B numeric_id start n b hB hb]
    unfold laneCache1 laneWrite
    rw [if_pos ⟨Nat.le_add_right _ _, by omega⟩]
    have harg : NONCE_SIZE - HASH_SIZE + k - (NONCE_SIZE - HASH_SIZE) = k := by omega
    rw [harg]
  refine ⟨hc1, ?_, by norm_num [NONCE_SIZE, HASH_SIZE]⟩
  rw [batchT2_deint hf g B numeric_id start n b hB hb]
  unfold laneT2
  refine congrArg₂ _ ?_ rfl
  unfold msgTake listOf
  refine List.map_congr_left fun k hk => ?_
  have hk' : k < HASH_SIZE := List.mem_range.mp hk
  have h := hc1 k hk'
  rw [batchCache1_deint hf g B numeric_id start n b hB hb] at h
  exact h

/-- Claim C6 witness: the T2 layout at width 8, lane 0, with a trivial
kernel. -/
theorem round1_seeds_t2_witness :
    batchT2 8 (fun _ _ _ _ => 0) 0 0 0 0 0 =
      listOf (round1Out (fun _ _ _ _ => (0 : ℕ)) (0 : ℕ) 0 (0 + 0 + 0)) HASH_SIZE ++
        listOf (seedLane 0 (0 + 0 + 0)) HASH_SIZE ∧
    (NONCE_SIZE - HASH_SIZE) / HASH_SIZE = 8191 :=
  have h := @round1_seeds_t2 ℕ (fun _ _ _ _ => 0) 0 8 0 0 0 0 (by decide) (by decide)
  ⟨h.2.1, h.2.2⟩

/-- Claim C2: the de-interleaved nonce `k` produced by the 8-lane AVX2
engine equals the one produced by the 16-lane AVX-512F engine, and both
equal the width-independent per-lane reference chain on nonce number
`start + k`; the engines are pure functions of their arguments (the global
fast context, read-only after init, is the `g` parameter), so repeated
invocations are byte-identical.  The membership conjuncts record that the
batch holding nonce `k` is among the batches the respective loop executes. -/
theorem noncegen_avx2_avx512f_agree {Ctx : Type} (hf : Ctx → List ℕ → List ℕ → ℕ → ℕ) (g : Ctx)
    (numeric_id start count k : ℕ)
    (h8 : count % 8 = 0) (h16 : count % 16 = 0) (hk : k < count) :
    noncegenOut 8 hf g numeric_id start k = noncegenOut 16 hf g numeric_id start k ∧
    noncegenOut 8 hf g numeric_id start k = lanePlot hf g numeric_id (start + k) ∧
    noncegenOut 16 hf g numeric_id start k = lanePlot hf g numeric_id (start + k) ∧
    8 * (k / 8) ∈ (List.range (count / 8)).map (· * 8) ∧
    16 * (k / 16) ∈ (List.range (count / 16)).map (· * 16) := by
  have e8 : noncegenOut 8 hf g numeric_id start k = lanePlot hf g numeric_id (start + k) := by
    unfold noncegenOut
    rw [noncegenBatch_deint hf g 8 numeric_id start (8 * (k / 8)) (k % 8) (by norm_num)
      (Nat.mod_lt k (by norm_num))]
    have harg : start + 8 * (k / 8) + k % 8 = start + k := by omega
    rw [harg]
  have e16 : noncegenOut 16 hf g numeric_id start k = lanePlot hf g numeric_id (start + k) := by
    unfold noncegenOut
    rw [noncegenBatch_deint hf g 16 numeric_id start (16 * (k / 16)) (k % 16) (by norm_num)
      (Nat.mod_lt k (by norm_num))]
    have harg : start + 16 * (k / 16) + k % 16 = start + k := by omega
    rw [harg]
  refine ⟨e8.trans e16.symm, e8, e16, ?_, ?_⟩
  · exact List.mem_map.mpr ⟨k / 8,
      List.mem_range.mpr (Nat.div_lt_div_of_lt_of_dvd (Nat.dvd_of_mod_eq_zero h8) hk),
      Nat.mul_comm (k / 8) 8⟩
  · exact List.mem_map.mpr ⟨k / 16,
      List.mem_range.mpr (Nat.div_lt_div_of_lt_of_dvd (Nat.dvd_of_mod_eq_zero h16) hk),
      Nat.mul_comm (k / 16) 16⟩

/-- Claim C2 witness: the two widths agree on nonce 3 of a 16-nonce run
with a trivial kernel. -/
theorem noncegen_avx2_avx512f_agree_witness :
    noncegenOut 8 (fun _ _ _ _ => 0) 0 0 0 3 = noncegenOut 16 (fun _ _ _ _ => (0 : ℕ)) (0 : ℕ) 0 0 3 ∧
    16 % 8 = 0 ∧ 16 % 16 = 0 ∧ 3 < 16 :=
  ⟨(@noncegen_avx2_avx512f_agree ℕ (fun _ _ _ _ => 0) 0 0 0 16 3
      (by decide) (by decide) (by decide)).1, by decide, by decide, by decide⟩

end Bencher

